import Mathlib

set_option maxHeartbeats 1000000

namespace Morph

/-!
Verification development for the morph resource engine.

The registration surface (task/utils/run_backend/decorators.py), the service
layer (api/service.py) and the project configuration (config/project.py) are
embedded from the source under src.  The registry store (state.py), the run
task (task/run.py), the execution cache staleness check (execution.py) and the
dependency resolver are referenced by that source but are not under src; those
parts are modelled from the spec and are marked as such in their doc comments.
-/

/-- Python values as they can arrive through the untyped kwargs of the
registration decorators.  Lists are restricted to string lists, which is the
only list shape the decorators ever read. -/
inductive PyVal where
  | pstr (s : String)
  | pint (n : Int)
  | pbool (b : Bool)
  | pnone
  | plistStr (xs : List String)
  deriving DecidableEq, Repr

/-- Value stored for one declared variable: the dict literal built by the
variables decorator (decorators.py lines 95-104 and 119-127). -/
structure VarSpec where
  default : PyVal
  required : Option Bool
  type : Option String
  deriving DecidableEq, Repr

/-- Identity-relevant view of a Python function object: its defining file, its
dunder-name, and the cached dunder-morph-fid attribute if already set. -/
structure FuncObj where
  file : String
  fname : String
  fid_attr : Option String
  deriving DecidableEq, Repr

/-- MorphFunctionMetaObject as constructed by decorators.py: every field that a
registration call writes.  Fields that the variables and load_data decorators
set to Python None are Options. -/
structure MorphFunctionMetaObject where
  id : String
  name : String
  function : FuncObj
  description : Option String
  title : Option String
  «variables» : Option (List (String × VarSpec))
  data_requirements : Option (List String)
  output_paths : Option (List String)
  output_type : Option String
  connection : Option String
  result_cache_ttl : Option Int
  deriving DecidableEq, Repr

/-- The registry table: resource id to its current Metadata Object. -/
abbrev Registry := List (String × MorphFunctionMetaObject)

/-- Modelled from the spec: MorphGlobalContext.update_meta_object (state.py is
not under src).  Section 3: the Metadata Object for an id is replaced, not
merged, whenever the same id is re-registered; the registry holds one object
per id. -/
def update_meta_object (reg : Registry) (fid : String)
    (obj : MorphFunctionMetaObject) : Registry :=
  if reg.any (fun p => p.1 == fid) then
    reg.map (fun p => if p.1 == fid then (fid, obj) else p)
  else
    reg ++ [(fid, obj)]

/-- Modelled from the spec: MorphGlobalContext.search_meta_object (state.py is
not under src).  Returns the Metadata Object currently registered for the id,
if any. -/
def search_meta_object (reg : Registry) (fid : String) :
    Option MorphFunctionMetaObject :=
  (reg.find? (fun p => p.1 == fid)).map (fun p => p.2)

/-- morph decorators, underscore-get-morph-function-id (decorators.py lines
18-26): reuse the cached dunder attribute when present, else derive the id
from the source file plus the symbol name and cache it on the function
object.  Python mutates the function object, so the updated object is
returned alongside the id. -/
def get_morph_function_id (f : FuncObj) : String × FuncObj :=
  match f.fid_attr with
  | some fid => (fid, f)
  | none =>
      let fid := f.file ++ ":" ++ f.fname
      (fid, { f with fid_attr := some fid })

/-- Directory constant from constants.py. -/
def TMP_MORPH_DIR : String := "/tmp/morph"

/-- Modelled from the spec: default_output_paths is imported by decorators.py
from morph.config.project but its definition is not under src; the
MorphProject.output_paths default in src (project.py lines 30-34) gives the
template it returns. -/
def default_output_paths : List String :=
  [TMP_MORPH_DIR ++ "/\x7bname\x7d/\x7brun_id\x7d\x7bext()\x7d"]

/-- Python or on optional strings: the left operand wins only when it is
truthy, and an empty string is falsy. -/
def pyStrOr (a b : Option String) : Option String :=
  match a with
  | some s => if s = "" then b else some s
  | none => b

/-- Python name-or-fallback: the fallback (the symbol dunder-name) is used
when the optional string is absent or empty. -/
def pyStrOrName (a : Option String) (fallback : String) : String :=
  match a with
  | some s => if s = "" then fallback else s
  | none => fallback

/-- Python truthiness of an optional list or dict: None and the empty
collection are falsy. -/
def truthyOptList {α : Type} (v : Option (List α)) : Bool :=
  match v with
  | some l => !l.isEmpty
  | none => false

/-- Python dict update with a single key, as in the merge expression of the
variables decorator: an existing key is replaced in place, a new key is
appended. -/
def dictSet (m : List (String × VarSpec)) (k : String) (v : VarSpec) :
    List (String × VarSpec) :=
  if m.any (fun p => p.1 == k) then
    m.map (fun p => if p.1 == k then (k, v) else p)
  else m ++ [(k, v)]

/-- morph.func (decorators.py lines 29-86): builds a fresh Metadata Object
from the decorator arguments alone and installs it for the function id.  The
kwargs coercions keep the source behaviour: a data-requirements value that is
not a list becomes the empty list, a connection value that is neither a
string nor None becomes None, and empty strings are falsy in the alias-or-name
and name-or-symbol-name chains.  The bare-decorator overload (a callable first
argument, lines 80-84) is outside this model.  The wrapper returned by the
decorator carries the mutated function attributes, modelled by returning the
updated FuncObj. -/
def funcDecorator (name description title output_type : Option String)
    (result_cache_ttl : Option Int) («alias» : Option String)
    (kw_variables : Option (List (String × VarSpec)))
    (kw_data_requirements : Option PyVal) (kw_connection : Option PyVal)
    (f : FuncObj) (reg : Registry) : Registry × FuncObj :=
  let name1 : Option String := pyStrOr «alias» name
  let p := get_morph_function_id f
  let fid := p.1
  let f1 := p.2
  let «variables» : List (String × VarSpec) := kw_variables.getD []
  let data_req_value : PyVal := kw_data_requirements.getD (PyVal.plistStr [])
  let data_requirements : List String :=
    match data_req_value with
    | PyVal.plistStr xs => xs
    | _ => []
  let connection : Option String :=
    match kw_connection.getD PyVal.pnone with
    | PyVal.pstr s => some s
    | _ => none
  let meta_obj : MorphFunctionMetaObject :=
    { id := fid
      name := pyStrOrName name1 f1.fname
      function := f1
      description := description
      title := title
      «variables» := some «variables»
      data_requirements := some data_requirements
      output_paths := some default_output_paths
      output_type := output_type
      connection := connection
      result_cache_ttl := result_cache_ttl }
  (update_meta_object reg fid meta_obj, f1)

/-- morph.variables (decorators.py lines 89-166): when the registry already
holds an object for the id whose variables field is truthy, the new object
copies every other field forward and merges the new variable into the dict;
otherwise a fresh object is installed whose other fields are the defaults. -/
def variablesDecorator (var_name : String) (default : PyVal)
    (required : Option Bool) (type : Option String)
    (f : FuncObj) (reg : Registry) : Registry × FuncObj :=
  let p := get_morph_function_id f
  let fid := p.1
  let f1 := p.2
  let spec : VarSpec := { default := default, required := required, type := type }
  let fresh : MorphFunctionMetaObject :=
    { id := fid
      name := f1.fname
      function := f1
      description := none
      title := none
      «variables» := some [(var_name, spec)]
      data_requirements := none
      output_paths := none
      output_type := none
      connection := none
      result_cache_ttl := none }
  let reg' :=
    match search_meta_object reg fid with
    | some meta =>
        if truthyOptList meta.«variables» then
          update_meta_object reg fid
            { id := fid
              name := meta.name
              function := meta.function
              description := meta.description
              title := meta.title
              «variables» := some (dictSet (meta.«variables».getD []) var_name spec)
              data_requirements := meta.data_requirements
              output_paths := meta.output_paths
              output_type := meta.output_type
              connection := meta.connection
              result_cache_ttl := meta.result_cache_ttl }
        else
          update_meta_object reg fid fresh
    | none => update_meta_object reg fid fresh
  (reg', f1)

/-- morph.load_data (decorators.py lines 169-218): when the registry already
holds an object for the id whose data-requirements field is truthy, the new
object copies every other field forward and appends the new upstream name;
otherwise a fresh object is installed whose other fields are the defaults. -/
def loadDataDecorator (name : String) (f : FuncObj) (reg : Registry) :
    Registry × FuncObj :=
  let p := get_morph_function_id f
  let fid := p.1
  let f1 := p.2
  let fresh : MorphFunctionMetaObject :=
    { id := fid
      name := f1.fname
      function := f1
      description := none
      title := none
      «variables» := none
      data_requirements := some [name]
      output_paths := none
      output_type := none
      connection := none
      result_cache_ttl := none }
  let reg' :=
    match search_meta_object reg fid with
    | some meta =>
        if truthyOptList meta.data_requirements then
          update_meta_object reg fid
            { id := fid
              name := meta.name
              function := meta.function
              description := meta.description
              title := meta.title
              «variables» := meta.«variables»
              data_requirements := some (meta.data_requirements.getD [] ++ [name])
              output_paths := meta.output_paths
              output_type := meta.output_type
              connection := meta.connection
              result_cache_ttl := meta.result_cache_ttl }
        else
          update_meta_object reg fid fresh
    | none => update_meta_object reg fid fresh
  (reg', f1)

/-- The wrapper returned by morph.func (decorators.py lines 73-77): it calls
the decorated function with the same arguments and returns its result. -/
def funcWrapper {α β : Type} (f : α → β) : α → β := fun args => f args

/-- The wrapper returned by morph.variables (decorators.py lines 160-164). -/
def variablesWrapper {α β : Type} (f : α → β) : α → β := fun args => f args

/-- The wrapper returned by morph.load_data (decorators.py lines 212-216). -/
def loadDataWrapper {α β : Type} (f : α → β) : α → β := fun args => f args

/-- Connection slug referenced by project.py; its defining module
(task/utils/connection.py) is not under src, so the value is an opaque
constant here.  No claim depends on it. -/
def MORPH_BUILTIN_DB_CONNECTION_SLUG : String := "morph_builtin_db"

/-- Schedule entry from config/project.py lines 15-19. -/
structure Schedule where
  cron : String
  is_enabled : Bool := true
  timezone : String := "UTC"
  «variables» : Option (List (String × PyVal)) := none
  deriving DecidableEq, Repr

/-- Scheduled job from config/project.py lines 22-23. -/
structure ScheduledJob where
  schedules : List Schedule
  deriving DecidableEq, Repr

/-- MorphProject from config/project.py lines 26-39, with the pydantic field
defaults.  result_cache_ttl defaults to 0. -/
structure MorphProject where
  profile : Option String := some "default"
  source_paths : List String := ["src"]
  default_connection : Option String := some MORPH_BUILTIN_DB_CONNECTION_SLUG
  output_paths : List String :=
    [TMP_MORPH_DIR ++ "/\x7bname\x7d/\x7brun_id\x7d\x7bext()\x7d"]
  scheduled_jobs : Option (List (String × ScheduledJob)) := none
  result_cache_ttl : Option Int := some 0
  deriving DecidableEq, Repr

/-- default_initial_project from config/project.py lines 42-43. -/
def default_initial_project : MorphProject := {}

/-- Modelled from the spec: the DAG-mode staleness check lives in
run_backend/execution.py, which is not under src.  Section 4.3: the effective
TTL is the resource's own result_cache_ttl if set, else the project default. -/
def effective_ttl (project : MorphProject) (resource_ttl : Option Int) : Int :=
  match resource_ttl with
  | some t => t
  | none => project.result_cache_ttl.getD 0

/-- Modelled from the spec: section 4.3, staleness is now minus the entry
timestamp being greater than the effective TTL. -/
def is_stale (now timestamp ttl : Int) : Bool := now - timestamp > ttl

/-- Run states of the execution state machine.  The RunStatus enum
(run_backend/types.py) is not under src; modelled from the spec, section 4.3:
PENDING, RUNNING, DONE, FAILED. -/
inductive RunStatus where
  | pending
  | running
  | done
  | failed
  deriving DecidableEq, Repr

/-- The observable outcome of one RunTask invocation as read by
api/service.py: final state, error payload, produced output paths. -/
structure TaskResult where
  final_state : RunStatus
  error : Option String
  output_paths : List String
  deriving DecidableEq, Repr

/-- Outcome of the resource's own underlying code. -/
inductive CodeOutcome where
  | success (outputs : List String)
  | raises (msg : String)
  deriving DecidableEq, Repr

/-- Modelled from the spec: RunTask (task/run.py is not under src).  Section
4.3: the run record reaches DONE only when the resource's code completes
without raising and produces at least one output artifact; any exception, or
completion with zero output artifacts, transitions to FAILED carrying a
structured error payload (kind plus message). -/
def runTask (outcome : CodeOutcome) : TaskResult :=
  match outcome with
  | CodeOutcome.raises msg =>
      { final_state := RunStatus.failed
        error := some ("ExecutionError: " ++ msg)
        output_paths := [] }
  | CodeOutcome.success outs =>
      if outs.isEmpty then
        { final_state := RunStatus.failed
          error := some "ExecutionError: no output artifact produced"
          output_paths := [] }
      else
        { final_state := RunStatus.done
          error := none
          output_paths := outs }

/-- One Output Cache entry: last output paths and last-write timestamp
(spec section 3). -/
structure CacheEntry where
  output_paths : List String
  timestamp : Int
  deriving DecidableEq, Repr

/-- The Output Cache: resource identity to its single current entry. -/
abbrev Cache := List (String × CacheEntry)

/-- execution_cache.update_cache as called from api/service.py line 116.
Modelled from the spec (execution.py is not under src), section 4.4: put
overwrites the entry for the identity with the new paths and the current
timestamp; entries are overwritten, never appended. -/
def update_cache (c : Cache) (name : String) (paths : List String)
    (now : Int) : Cache :=
  if c.any (fun p => p.1 == name) then
    c.map (fun p =>
      if p.1 == name then (name, { output_paths := paths, timestamp := now })
      else p)
  else c ++ [(name, { output_paths := paths, timestamp := now })]

/-- Error results of the run-file service. -/
inductive ServiceError where
  | executionFailed (detail : Option String)
  | outputNotFound
  deriving DecidableEq, Repr

/-- run_file_with_type_service from api/service.py lines 85-116, restricted to
the run-state and cache handling the claims are about: the name lookup
prologue before the run and the post-cache file-conversion glue (out of scope
per spec section 1) are elided.  Every raise path returns the cache unchanged;
the cache is written only after the DONE check and the non-empty output check
both pass. -/
def run_file_with_type_core (cache : Cache) (now : Int) (name : String)
    (task : TaskResult) : Cache × Except ServiceError (List String) :=
  if task.final_state ≠ RunStatus.done then
    (cache, Except.error (ServiceError.executionFailed task.error))
  else if task.output_paths.isEmpty then
    (cache, Except.error ServiceError.outputNotFound)
  else
    (update_cache cache name task.output_paths now,
     Except.ok task.output_paths)

/-- An exception as serialised by api/service.py lines 258-262 and 277-281:
type name and message. -/
structure ExnPayload where
  type : String
  message : String
  deriving DecidableEq, Repr

/-- The in-band error chunk closing an errored streaming sequence. -/
def errorChunk (e : ExnPayload) : String :=
  "\x7b\"error\": \"" ++ e.type ++ ": " ++ e.message ++ "\"\x7d"

/-- Modelled from the spec: the api-mode RunTask generator (task/run.py is not
under src).  Sections 4.3 and 7: chunks are handed over in the order the
underlying computation emitted them, and when the computation raises partway
the sequence is terminated with one final in-band error chunk rather than an
exception, so partial output already delivered is not discarded. -/
def runTaskStream (chunks : List String) (err : Option ExnPayload) :
    List String :=
  match err with
  | none => chunks
  | some e => chunks ++ [errorChunk e]

/-- Header yielded before the first chunk (api/service.py line 270). -/
def jsonHeader : String := "\x7b\"chunks\": ["

/-- Footer yielded after a normally completed generator (line 275). -/
def jsonFooter : String := "]\x7d"

/-- run_file_stream_service from api/service.py lines 265-282: the async
generator yields a JSON header before the first chunk, forwards every chunk
of the underlying generator suffixed with a comma in order, and closes the
JSON array on normal completion; when the underlying generator itself raises
after yielding some chunks (genErr), the service stops and re-raises an
exception carrying the error, yielding no footer.  The inter-chunk asyncio
sleeps affect pacing only, not content or order. -/
def run_file_stream_core (gen : List String) (genErr : Option ExnPayload) :
    List String × Option ExnPayload :=
  let yielded :=
    (if gen.isEmpty then [] else [jsonHeader]) ++ gen.map (fun c => c ++ ",")
  match genErr with
  | none => (yielded ++ [jsonFooter], none)
  | some e => (yielded, some e)

/-- Planning failures, spec section 4.2: a cycle reports the list of resource
identities forming the full cycle; a missing dependency reports the offending
resource and the missing name. -/
inductive PlanError where
  | CycleDetected : List String → PlanError
  | MissingDependency : String → String → PlanError
  deriving DecidableEq, Repr

/-- Planning view of a registry snapshot: resource identity to its declared
data requirements, in declaration order. -/
abbrev DepGraph := List (String × List String)

/-- Declared data requirements of a registered resource, none when the name
does not resolve to any registered resource. -/
def depsOf (reg : DepGraph) (n : String) : Option (List String) :=
  (reg.find? (fun p => p.1 == n)).map (fun p => p.2)

/-- Declared data requirements with the empty default. -/
def depsD (reg : DepGraph) (n : String) : List String := (depsOf reg n).getD []

/-- Resource a declares resource b among its data requirements. -/
def Requires (reg : DepGraph) (a b : String) : Prop := b ∈ depsD reg a

instance (reg : DepGraph) (a b : String) : Decidable (Requires reg a b) :=
  inferInstanceAs (Decidable (b ∈ depsD reg a))

/-- Sequencing of the depth-first visits of a requirement list: stop at the
first failing child, otherwise thread the accumulated order through. -/
def visitFold (g : List String → String → Except PlanError (List String)) :
    List String → List String → Except PlanError (List String)
  | acc, [] => Except.ok acc
  | acc, d :: ds =>
    match g acc d with
    | Except.error e => Except.error e
    | Except.ok acc' => visitFold g acc' ds

/-- Modelled from the spec: the Dependency Resolver (section 4.2) is not under
src.  Depth-first post-order over the data-requirements edges: path is the
chain of in-progress ancestors (most recent first) used to detect cycles and
to report the full cycle, acc is the finished post-order so far; a visited
identity is skipped, so each identity appears once even when reachable via
multiple paths, and children are visited in declaration order, which is the
deterministic tie-break.  The fuel only bounds the recursion depth; plan
supplies enough fuel that the zero case is unreachable, which is proved in
visit_spec below. -/
def visit (reg : DepGraph) : Nat → List String → List String → String →
    Except PlanError (List String)
  | 0, path, _, n => Except.error (PlanError.CycleDetected (n :: path))
  | fuel + 1, path, acc, n =>
    if n ∈ acc then Except.ok acc
    else if n ∈ path then
      Except.error (PlanError.CycleDetected
        (n :: path.takeWhile (fun x => x != n)))
    else
      match depsOf reg n with
      | none =>
          Except.error (PlanError.MissingDependency ((path.head?).getD n) n)
      | some ds =>
          match visitFold (fun a d => visit reg fuel (n :: path) a d) acc ds with
          | Except.error e => Except.error e
          | Except.ok acc' => Except.ok (acc' ++ [n])

/-- Enough fuel for any chain of distinct registered identities. -/
def planFuel (reg : DepGraph) : Nat := ((reg.map Prod.fst).dedup).length + 1

/-- Modelled from the spec: plan(target) (section 4.2) returns the ordered
sequence of resource identities to execute, a topological sort of the
subgraph reachable from the target along data-requirements edges. -/
def plan (reg : DepGraph) (target : String) : Except PlanError (List String) :=
  visit reg (planFuel reg) [] [] target

/-- The list c is a genuine dependency cycle of the registry: it is nonempty,
every element requires the element before it, and the first element requires
the last, closing the loop. -/
def IsDepCycle (reg : DepGraph) (c : List String) : Prop :=
  c ≠ [] ∧ List.Chain' (fun a b => Requires reg b a) c ∧
    Requires reg c.headI c.getLastI

/-- Transitive reachability along data-requirements edges. -/
inductive Reaches (reg : DepGraph) : String → String → Prop where
  | refl (x : String) : Reaches reg x x
  | step {x y z : String} : Reaches reg x y → Requires reg y z →
      Reaches reg x z

/-- Every resource in the list appears after all of its data requirements:
whatever an element requires occurs strictly before it. -/
def OrderOK (reg : DepGraph) (l : List String) : Prop :=
  ∀ pre r suf, l = pre ++ r :: suf → ∀ d, Requires reg r d → d ∈ pre

/-- Postcondition of one depth-first visit, by result: on success the order
grows by fresh identities outside the ancestor path, stays duplicate-free and
dependency-ordered, contains the visited identity, and ends with it unless it
was already present; a reported cycle is a genuine cycle; a reported missing
dependency is reachable from the root and unregistered. -/
def VisitPost (reg : DepGraph) (root : String) (path acc : List String)
    (n : String) : Except PlanError (List String) → Prop
  | Except.ok acc' => ∃ fresh, acc' = acc ++ fresh ∧ acc'.Nodup ∧
      OrderOK reg acc' ∧ n ∈ acc' ∧ (∀ x ∈ fresh, x ∉ path) ∧
      (n ∈ acc ∨ ∃ l, acc' = l ++ [n])
  | Except.error (PlanError.CycleDetected c) => IsDepCycle reg c
  | Except.error (PlanError.MissingDependency _ m) =>
      Reaches reg root m ∧ depsOf reg m = none

/-- Postcondition of visiting a requirement list: like VisitPost, with every
listed requirement present in the resulting order. -/
def FoldPost (reg : DepGraph) (root : String) (path acc ds : List String) :
    Except PlanError (List String) → Prop
  | Except.ok acc' => ∃ fresh, acc' = acc ++ fresh ∧ acc'.Nodup ∧
      OrderOK reg acc' ∧ (∀ d ∈ ds, d ∈ acc') ∧ (∀ x ∈ fresh, x ∉ path)
  | Except.error (PlanError.CycleDetected c) => IsDepCycle reg c
  | Except.error (PlanError.MissingDependency _ m) =>
      Reaches reg root m ∧ depsOf reg m = none

/-- A chain of requirements of length at least one; a resource transitively
requires itself exactly when TransRequires relates it to itself. -/
inductive TransRequires (reg : DepGraph) : String → String → Prop where
  | single {x y : String} : Requires reg x y → TransRequires reg x y
  | tail {x y z : String} : TransRequires reg x y → Requires reg y z →
      TransRequires reg x z

/-- The registration scenario of spec section 8: alias2 with no dependencies,
alias1 requiring alias2. -/
def exampleGraph : DepGraph := [("alias2", []), ("alias1", ["alias2"])]

/-- The two-node cycle of spec section 8. -/
def cycleGraph : DepGraph := [("A", ["B"]), ("B", ["A"])]

/-- The function object of examples/example_cells/example1.py before any
decorator runs. -/
def exampleMain : FuncObj :=
  { file := "example1.py", fname := "main", fid_attr := none }

/-- Decorator stack of example1.py, applied bottom-up: load_data first. -/
def exampleStep1 : Registry × FuncObj :=
  loadDataDecorator "alias2" exampleMain []

/-- Then the variables declaration for score_limit. -/
def exampleStep2 : Registry × FuncObj :=
  variablesDecorator "score_limit" PyVal.pnone (some false) none
    exampleStep1.2 exampleStep1.1

/-- Then morph.func with the alias1 name, applied last. -/
def exampleStep3 : Registry × FuncObj :=
  funcDecorator (some "alias1") none none none none none none none none
    exampleStep2.2 exampleStep2.1

/-- A concrete function object used for the registration examples. -/
def c7Func : FuncObj := { file := "a.py", fname := "fn_main", fid_attr := none }

theorem orderOK_nil (reg : DepGraph) : OrderOK reg [] := by
  intro pre r suf h
  exact absurd h (by simp)

theorem append_singleton_split {pre suf l : List String} {r n : String}
    (h : pre ++ r :: suf = l ++ [n]) :
    (pre = l ∧ r = n ∧ suf = []) ∨
      ∃ suf', suf = suf' ++ [n] ∧ l = pre ++ r :: suf' := by
  rcases List.eq_nil_or_concat suf with hs | ⟨s', a, hs⟩
  · subst hs
    obtain ⟨h1, h2⟩ := List.append_inj' h (by simp)
    refine Or.inl ⟨h1, ?_, rfl⟩
    injection h2
  · rw [List.concat_eq_append] at hs
    subst hs
    have h' : (pre ++ r :: s') ++ [a] = l ++ [n] := by
      rw [List.append_assoc, List.cons_append]
      exact h
    obtain ⟨h1, h2⟩ := List.append_inj' h' (by simp)
    have ha : a = n := by injection h2
    subst ha
    exact Or.inr ⟨s', rfl, h1.symm⟩

theorem orderOK_snoc {reg : DepGraph} {l : List String} {n : String}
    (hord : OrderOK reg l) (hdep : ∀ d, Requires reg n d → d ∈ l) :
    OrderOK reg (l ++ [n]) := by
  intro pre r suf heq d hreq
  rcases append_singleton_split heq.symm with ⟨h1, h2, _⟩ | ⟨suf', _, h3⟩
  · subst h2
    rw [h1]
    exact hdep d hreq
  · exact hord pre r suf' h3 d hreq

theorem mem_split_first {n : String} {path : List String} (hmem : n ∈ path) :
    ∃ rest, path = path.takeWhile (fun x => x != n) ++ n :: rest := by
  induction path with
  | nil => cases hmem
  | cons a as ih =>
    by_cases ha : a = n
    · subst ha
      refine ⟨as, ?_⟩
      rw [List.takeWhile_cons_of_neg (by simp)]
      simp
    · rcases List.mem_cons.mp hmem with h | h
      · exact absurd h.symm ha
      · rcases ih h with ⟨rest, hrest⟩
        refine ⟨rest, ?_⟩
        rw [List.takeWhile_cons_of_pos (by simp [ha])]
        rw [List.cons_append]
        exact congrArg (a :: ·) hrest

theorem getLastI_of_getLast? {l : List String} {a : String}
    (h : l.getLast? = some a) : l.getLastI = a := by
  rw [List.getLastI_eq_getLast?, h]

theorem cycle_of_mem_path {reg : DepGraph} {n : String} {path : List String}
    (hch : List.Chain' (fun a b => Requires reg b a) (n :: path))
    (hmem : n ∈ path) :
    IsDepCycle reg (n :: path.takeWhile (fun x => x != n)) := by
  rcases mem_split_first hmem with ⟨rest, hsplit⟩
  have h1 : n :: path =
      (n :: path.takeWhile (fun x => x != n)) ++ (n :: rest) := by
    rw [List.cons_append]
    exact congrArg (n :: ·) hsplit
  rw [h1, List.chain'_append] at hch
  obtain ⟨hc1, _, hlink⟩ := hch
  refine ⟨by simp, hc1, ?_⟩
  cases hq : (n :: path.takeWhile (fun x => x != n)).getLast? with
  | none => simp at hq
  | some a =>
    have hL : (n :: path.takeWhile (fun x => x != n)).getLastI = a :=
      getLastI_of_getLast? hq
    have hlk : Requires reg n a := hlink a (by rw [hq]; rfl) n rfl
    show Requires reg (n :: path.takeWhile (fun x => x != n)).headI
      ((n :: path.takeWhile (fun x => x != n)).getLastI)
    rw [hL]
    exact hlk

theorem nodup_subset_length_le {path ids : List String}
    (hnd : path.Nodup) (hsub : ∀ x ∈ path, x ∈ ids) :
    path.length ≤ ids.dedup.length := by
  have h1 : path.toFinset.card = path.length := List.toFinset_card_of_nodup hnd
  have h2 : path.toFinset ⊆ ids.toFinset := by
    intro x hx
    rw [List.mem_toFinset] at hx ⊢
    exact hsub x hx
  have h3 : ids.toFinset.card = ids.dedup.length := List.card_toFinset ids
  calc path.length = path.toFinset.card := h1.symm
    _ ≤ ids.toFinset.card := Finset.card_le_card h2
    _ = ids.dedup.length := h3

theorem depsOf_mem_ids {reg : DepGraph} {n : String} {ds : List String}
    (h : depsOf reg n = some ds) : n ∈ reg.map Prod.fst := by
  unfold depsOf at h
  cases hf : reg.find? (fun p => p.1 == n) with
  | none => rw [hf] at h; cases h
  | some p =>
    have hp := List.find?_some hf
    have hpm : p ∈ reg := List.mem_of_find?_eq_some hf
    have hpn : p.1 = n := by simpa using hp
    exact hpn ▸ List.mem_map.mpr ⟨p, hpm, rfl⟩

theorem visitFold_spec (reg : DepGraph) (root : String)
    (P : String → Prop) (path : List String)
    (g : List String → String → Except PlanError (List String))
    (hg : ∀ acc d, P d → acc.Nodup → OrderOK reg acc →
      (∀ x ∈ acc, x ∉ path) → VisitPost reg root path acc d (g acc d)) :
    ∀ ds acc, (∀ d ∈ ds, P d) → acc.Nodup → OrderOK reg acc →
      (∀ x ∈ acc, x ∉ path) →
      FoldPost reg root path acc ds (visitFold g acc ds) := by
  intro ds
  induction ds with
  | nil =>
    intro acc _ hnd hord hdisj
    exact ⟨[], by simp, hnd, hord, by simp, by simp⟩
  | cons d ds ih =>
    intro acc hP hnd hord hdisj
    have hpost := hg acc d (hP d (by simp)) hnd hord hdisj
    show FoldPost reg root path acc (d :: ds)
      (match g acc d with
        | Except.error e => Except.error e
        | Except.ok acc' => visitFold g acc' ds)
    cases hgd : g acc d with
    | error e =>
      rw [hgd] at hpost
      show FoldPost reg root path acc (d :: ds) (Except.error e)
      cases e with
      | CycleDetected c => exact hpost
      | MissingDependency q m => exact hpost
    | ok acc1 =>
      rw [hgd] at hpost
      obtain ⟨fr1, heq1, hnd1, hord1, hdmem, hfr1, _⟩ := hpost
      have hdisj1 : ∀ x ∈ acc1, x ∉ path := by
        intro x hx
        rw [heq1] at hx
        rcases List.mem_append.mp hx with h | h
        · exact hdisj x h
        · exact hfr1 x h
      have hrec := ih acc1 (fun d' hd' => hP d' (by simp [hd'])) hnd1 hord1 hdisj1
      show FoldPost reg root path acc (d :: ds) (visitFold g acc1 ds)
      cases hrest : visitFold g acc1 ds with
      | error e =>
        rw [hrest] at hrec
        cases e with
        | CycleDetected c => exact hrec
        | MissingDependency q m => exact hrec
      | ok acc2 =>
        rw [hrest] at hrec
        obtain ⟨fr2, heq2, hnd2, hord2, hmem2, hfr2⟩ := hrec
        refine ⟨fr1 ++ fr2, ?_, hnd2, hord2, ?_, ?_⟩
        · rw [heq2, heq1, List.append_assoc]
        · intro d' hd'
          rcases List.mem_cons.mp hd' with h | h
          · subst h
            rw [heq2]
            exact List.mem_append_left _ hdmem
          · exact hmem2 d' h
        · intro x hx
          rcases List.mem_append.mp hx with h | h
          · exact hfr1 x h
          · exact hfr2 x h

theorem visit_spec (reg : DepGraph) (root : String) :
    ∀ (fuel : Nat) (path acc : List String) (n : String),
      ((reg.map Prod.fst).dedup).length + 1 ≤ fuel + path.length →
      path.Nodup → (∀ x ∈ path, x ∈ reg.map Prod.fst) →
      List.Chain' (fun a b => Requires reg b a) (n :: path) →
      Reaches reg root n →
      acc.Nodup → OrderOK reg acc → (∀ x ∈ acc, x ∉ path) →
      VisitPost reg root path acc n (visit reg fuel path acc n) := by
  intro fuel
  induction fuel with
  | zero =>
    intro path acc n hfuel hnd hsub _ _ _ _ _
    exfalso
    have := nodup_subset_length_le hnd hsub
    omega
  | succ fuel ih =>
    intro path acc n hfuel hnd hsub hch hreach hand hord hdisj
    show VisitPost reg root path acc n
      (if n ∈ acc then Except.ok acc
        else if n ∈ path then
          Except.error (PlanError.CycleDetected
            (n :: path.takeWhile (fun x => x != n)))
        else
          match depsOf reg n with
          | none =>
              Except.error (PlanError.MissingDependency ((path.head?).getD n) n)
          | some ds =>
              match visitFold (fun a d => visit reg fuel (n :: path) a d) acc ds with
              | Except.error e => Except.error e
              | Except.ok acc' => Except.ok (acc' ++ [n]))
    by_cases hacc : n ∈ acc
    · rw [if_pos hacc]
      exact ⟨[], by simp, hand, hord, hacc, by simp, Or.inl hacc⟩
    · rw [if_neg hacc]
      by_cases hpath : n ∈ path
      · rw [if_pos hpath]
        exact cycle_of_mem_path hch hpath
      · rw [if_neg hpath]
        cases hdeps : depsOf reg n with
        | none => exact ⟨hreach, hdeps⟩
        | some ds =>
          have hnin : n ∈ reg.map Prod.fst := depsOf_mem_ids hdeps
          have hreqds : ∀ d ∈ ds, Requires reg n d := by
            intro d hd
            show d ∈ depsD reg n
            rw [depsD, hdeps]
            exact hd
          have hg : ∀ acc' d, Requires reg n d → acc'.Nodup → OrderOK reg acc' →
              (∀ x ∈ acc', x ∉ n :: path) →
              VisitPost reg root (n :: path) acc' d
                (visit reg fuel (n :: path) acc' d) := by
            intro acc' d hreq hnd' hord' hdisj'
            apply ih (n :: path) acc' d
            · simp only [List.length_cons]
              omega
            · exact List.nodup_cons.mpr ⟨hpath, hnd⟩
            · intro x hx
              rcases List.mem_cons.mp hx with h | h
              · exact h ▸ hnin
              · exact hsub x h
            · exact List.chain'_cons.mpr ⟨hreq, hch⟩
            · exact Reaches.step hreach hreq
            · exact hnd'
            · exact hord'
            · exact hdisj'
          have hdisj2 : ∀ x ∈ acc, x ∉ n :: path := by
            intro x hx
            rw [List.mem_cons]
            rintro (h | h)
            · exact hacc (h ▸ hx)
            · exact hdisj x hx h
          have hfold := visitFold_spec reg root (fun d => Requires reg n d)
            (n :: path) (fun a d => visit reg fuel (n :: path) a d) hg ds acc
            hreqds hand hord hdisj2
          show VisitPost reg root path acc n
            (match visitFold (fun a d => visit reg fuel (n :: path) a d) acc ds with
              | Except.error e => Except.error e
              | Except.ok acc' => Except.ok (acc' ++ [n]))
          cases hres : visitFold (fun a d => visit reg fuel (n :: path) a d) acc ds with
          | error e =>
            rw [hres] at hfold
            cases e with
            | CycleDetected c => exact hfold
            | MissingDependency q m => exact hfold
          | ok acc1 =>
            rw [hres] at hfold
            obtain ⟨fresh, heq, hnd1, hord1, hdsmem, hfr⟩ := hfold
            have hnacc1 : n ∉ acc1 := by
              rw [heq]
              intro hmem
              rcases List.mem_append.mp hmem with h | h
              · exact hacc h
              · exact hfr n h (by simp)
            refine ⟨fresh ++ [n], ?_, ?_, ?_, ?_, ?_, Or.inr ⟨acc1, rfl⟩⟩
            · rw [heq, List.append_assoc]
            · rw [List.nodup_append]
              refine ⟨hnd1, List.nodup_singleton n, ?_⟩
              intro a ha hb
              rw [List.mem_singleton] at hb
              exact hnacc1 (hb ▸ ha)
            · apply orderOK_snoc hord1
              intro d hreq
              have : d ∈ depsD reg n := hreq
              rw [depsD, hdeps] at this
              exact hdsmem d this
            · simp
            · intro x hx
              rcases List.mem_append.mp hx with h | h
              · intro hxp
                exact hfr x h (List.mem_cons_of_mem n hxp)
              · rw [List.mem_singleton] at h
                exact h ▸ hpath

theorem plan_post (reg : DepGraph) (target : String) :
    VisitPost reg target [] [] target (plan reg target) := by
  have h := visit_spec reg target (planFuel reg) [] [] target
    (by simp [planFuel]) List.nodup_nil (by simp)
    (by simp) (Reaches.refl target)
    List.nodup_nil (orderOK_nil reg) (by simp)
  exact h

theorem plan_cycle_sound {reg : DepGraph} {target : String} {c : List String}
    (h : plan reg target = Except.error (PlanError.CycleDetected c)) :
    IsDepCycle reg c := by
  have hp := plan_post reg target
  rw [h] at hp
  exact hp

theorem plan_missing_sound {reg : DepGraph} {target : String} {q m : String}
    (h : plan reg target = Except.error (PlanError.MissingDependency q m)) :
    Reaches reg target m ∧ depsOf reg m = none := by
  have hp := plan_post reg target
  rw [h] at hp
  exact hp

theorem plan_ok_props {reg : DepGraph} {target : String} {order : List String}
    (h : plan reg target = Except.ok order) :
    order.Nodup ∧ OrderOK reg order ∧ order.getLast? = some target ∧
      (∀ x, Reaches reg target x → x ∈ order) := by
  have hp := plan_post reg target
  rw [h] at hp
  obtain ⟨fresh, heq, hnd, hord, hmem, _, hlast⟩ := hp
  rcases hlast with hcontra | ⟨l, hl⟩
  · cases hcontra
  · refine ⟨hnd, hord, ?_, ?_⟩
    · rw [hl]
      exact List.getLast?_concat l
    · intro x hx
      induction hx with
      | refl => exact hmem
      | step hr hreq ihstep =>
        rcases List.append_of_mem ihstep with ⟨s, t, hst⟩
        have hd := hord s _ t hst _ hreq
        rw [hst]
        exact List.mem_append_left _ hd

theorem indexOf_append_self {r : String} :
    ∀ (pre suf : List String), (pre ++ r :: suf).Nodup →
      List.indexOf r (pre ++ r :: suf) = pre.length := by
  intro pre
  induction pre with
  | nil =>
    intro suf _
    simp
  | cons a as ih =>
    intro suf hnd
    have hna : r ≠ a := by
      rcases List.nodup_cons.mp hnd with ⟨hnotmem, _⟩
      intro h
      exact hnotmem (h ▸ (by simp : r ∈ as ++ r :: suf))
    rw [List.cons_append, List.indexOf_cons_ne _ (Ne.symm hna),
      ih suf (List.nodup_cons.mp hnd).2]
    simp

theorem indexOf_append_of_mem {d : String} :
    ∀ (pre rest : List String), d ∈ pre →
      List.indexOf d (pre ++ rest) = List.indexOf d pre := by
  intro pre
  induction pre with
  | nil =>
    intro rest h
    cases h
  | cons a as ih =>
    intro rest h
    by_cases hda : d = a
    · subst hda
      simp
    · rcases List.mem_cons.mp h with h1 | h1
      · exact absurd h1 hda
      · rw [List.cons_append, List.indexOf_cons_ne _ (Ne.symm hda),
          List.indexOf_cons_ne _ (Ne.symm hda), ih rest h1]

theorem orderOK_idx {reg : DepGraph} {order : List String}
    (hnd : order.Nodup) (hord : OrderOK reg order) {r d : String}
    (hr : r ∈ order) (hreq : Requires reg r d) :
    d ∈ order ∧ List.indexOf d order < List.indexOf r order := by
  rcases List.append_of_mem hr with ⟨pre, suf, hsplit⟩
  subst hsplit
  have hd : d ∈ pre := hord pre r suf rfl d hreq
  constructor
  · exact List.mem_append_left _ hd
  · rw [indexOf_append_self pre suf hnd, indexOf_append_of_mem pre (r :: suf) hd]
    exact List.indexOf_lt_length.mpr hd

theorem transRequires_idx {reg : DepGraph} {order : List String}
    (hnd : order.Nodup) (hord : OrderOK reg order) :
    ∀ {x y : String}, TransRequires reg x y → x ∈ order →
      y ∈ order ∧ List.indexOf y order < List.indexOf x order := by
  intro x y htr
  induction htr with
  | single h =>
    intro hx
    exact orderOK_idx hnd hord hx h
  | tail htr hreq ih =>
    intro hx
    obtain ⟨hy, hlt⟩ := ih hx
    obtain ⟨hz, hlt2⟩ := orderOK_idx hnd hord hy hreq
    exact ⟨hz, lt_trans hlt2 hlt⟩

theorem no_self_trans_in_order {reg : DepGraph} {order : List String}
    (hnd : order.Nodup) (hord : OrderOK reg order) {x : String}
    (hx : x ∈ order) (htr : TransRequires reg x x) : False := by
  obtain ⟨_, hlt⟩ := transRequires_idx hnd hord htr hx
  exact lt_irrefl _ hlt

theorem exampleGraph_reach_cases (x : String)
    (h : Reaches exampleGraph "alias1" x) : x = "alias1" ∨ x = "alias2" := by
  induction h with
  | refl => exact Or.inl rfl
  | step hr hreq ih =>
    rcases ih with h1 | h1
    · rw [h1] at hreq
      have hz : _ ∈ depsD exampleGraph "alias1" := hreq
      rw [show depsD exampleGraph "alias1" = ["alias2"] from rfl] at hz
      simp at hz
      exact Or.inr hz
    · rw [h1] at hreq
      have hz : _ ∈ depsD exampleGraph "alias2" := hreq
      rw [show depsD exampleGraph "alias2" = [] from rfl] at hz
      cases hz

theorem exampleGraph_resolvable :
    ∀ x, Reaches exampleGraph "alias1" x →
      (depsOf exampleGraph x).isSome = true := by
  intro x hx
  rcases exampleGraph_reach_cases x hx with h | h <;> subst h <;> rfl

theorem exampleGraph_edge {a b : String}
    (hab : Requires exampleGraph a b) : a = "alias1" ∧ b = "alias2" := by
  by_cases h1 : a = "alias1"
  · subst h1
    have hz : b ∈ depsD exampleGraph "alias1" := hab
    rw [show depsD exampleGraph "alias1" = ["alias2"] from rfl] at hz
    simp at hz
    exact ⟨rfl, hz⟩
  · exfalso
    by_cases h2 : a = "alias2"
    · subst h2
      have hz : b ∈ depsD exampleGraph "alias2" := hab
      rw [show depsD exampleGraph "alias2" = [] from rfl] at hz
      cases hz
    · have hz : b ∈ depsD exampleGraph a := hab
      have hnone : exampleGraph.find? (fun p => p.1 == a) = none := by
        rw [List.find?_eq_none]
        intro p hp
        rcases (by simpa [exampleGraph] using hp :
            p = ("alias2", ([] : List String)) ∨ p = ("alias1", ["alias2"])) with
          h | h <;> subst h <;> simp <;> intro hh
        · exact h2 hh.symm
        · exact h1 hh.symm
      rw [depsD, depsOf, hnone] at hz
      cases hz

theorem exampleGraph_acyclic (c : List String) :
    ¬ IsDepCycle exampleGraph c := by
  rintro ⟨hne, hch, hwrap⟩
  obtain ⟨hh, hl⟩ := exampleGraph_edge hwrap
  match c, hne with
  | [a], _ =>
    have h1 : a = "alias1" := by simpa [List.headI] using hh
    have h2 : a = "alias2" := by
      have : ([a] : List String).getLastI = a := getLastI_of_getLast? rfl
      rw [this] at hl
      exact hl
    rw [h1] at h2
    exact absurd h2 (by decide)
  | a :: b :: t, _ =>
    have hS : Requires exampleGraph b a := (List.chain'_cons.mp hch).1
    obtain ⟨_, ha2⟩ := exampleGraph_edge hS
    have ha1 : a = "alias1" := by simpa [List.headI] using hh
    rw [ha1] at ha2
    exact absurd ha2 (by decide)

theorem cycleGraph_reach_cases (x : String)
    (h : Reaches cycleGraph "A" x) : x = "A" ∨ x = "B" := by
  induction h with
  | refl => exact Or.inl rfl
  | step hr hreq ih =>
    rcases ih with h1 | h1
    · rw [h1] at hreq
      have hz : _ ∈ depsD cycleGraph "A" := hreq
      rw [show depsD cycleGraph "A" = ["B"] from rfl] at hz
      simp at hz
      exact Or.inr hz
    · rw [h1] at hreq
      have hz : _ ∈ depsD cycleGraph "B" := hreq
      rw [show depsD cycleGraph "B" = ["A"] from rfl] at hz
      simp at hz
      exact Or.inl hz

theorem cycleGraph_resolvable :
    ∀ x, Reaches cycleGraph "A" x → (depsOf cycleGraph x).isSome = true := by
  intro x hx
  rcases cycleGraph_reach_cases x hx with h | h <;> subst h <;> rfl

/-- C2: for every target resolvable over an acyclic registry snapshot,
plan(target) returns an ordered sequence of resource identities in which
every resource appears after all of its data requirements, the target itself
is last, each identity appears exactly once even when reachable via multiple
paths (and every identity reachable from the target does appear), and
repeated calls against the unchanged registry return the same order. -/
theorem plan_topological_contract (reg : DepGraph) (target : String)
    (hres : ∀ x, Reaches reg target x → (depsOf reg x).isSome = true)
    (hacy : ∀ c, ¬ IsDepCycle reg c) :
    ∃ order, plan reg target = Except.ok order ∧
      order.Nodup ∧
      (∀ pre r suf, order = pre ++ r :: suf →
        ∀ d, Requires reg r d → d ∈ pre) ∧
      order.getLast? = some target ∧
      (∀ x, Reaches reg target x → x ∈ order) ∧
      plan reg target = plan reg target := by
  cases hp : plan reg target with
  | error e =>
    exfalso
    cases e with
    | CycleDetected c => exact hacy c (plan_cycle_sound hp)
    | MissingDependency q m =>
      obtain ⟨hr, hd⟩ := plan_missing_sound hp
      have hs := hres m hr
      rw [hd] at hs
      simp at hs
  | ok order =>
    obtain ⟨hnd, hord, hlast, hreach⟩ := plan_ok_props hp
    exact ⟨order, rfl, hnd, hord, hlast, hreach, rfl⟩

/-- Witness for C2 at the registration scenario of spec section 8. -/
theorem plan_topological_contract_witness :
    ∃ order, plan exampleGraph "alias1" = Except.ok order ∧
      order.Nodup ∧
      (∀ pre r suf, order = pre ++ r :: suf →
        ∀ d, Requires exampleGraph r d → d ∈ pre) ∧
      order.getLast? = some "alias1" ∧
      (∀ x, Reaches exampleGraph "alias1" x → x ∈ order) ∧
      plan exampleGraph "alias1" = plan exampleGraph "alias1" :=
  plan_topological_contract exampleGraph "alias1"
    exampleGraph_resolvable exampleGraph_acyclic

/-- C5: a reported cycle is always a genuine full dependency cycle of the
registry, not just a back-edge; whenever some resource reachable from the
target transitively requires itself and every reachable name is registered,
plan fails with CycleDetected carrying a genuine full cycle; and plan over
the cycle A to B to A fails with CycleDetected naming both A and B. -/
theorem plan_cycle_contract :
    (∀ (reg : DepGraph) (target : String) (c : List String),
        plan reg target = Except.error (PlanError.CycleDetected c) →
          IsDepCycle reg c) ∧
    (∀ (reg : DepGraph) (target : String),
        (∀ x, Reaches reg target x → (depsOf reg x).isSome = true) →
        (∃ x, Reaches reg target x ∧ TransRequires reg x x) →
        ∃ c, plan reg target = Except.error (PlanError.CycleDetected c) ∧
          IsDepCycle reg c) ∧
    (plan cycleGraph "A" = Except.error (PlanError.CycleDetected ["A", "B"]) ∧
      "A" ∈ (["A", "B"] : List String) ∧ "B" ∈ (["A", "B"] : List String)) := by
  refine ⟨?_, ?_, rfl, by simp, by simp⟩
  · intro reg target c hp
    exact plan_cycle_sound hp
  · intro reg target hres hcyc
    cases hp : plan reg target with
    | error e =>
      cases e with
      | CycleDetected c => exact ⟨c, rfl, plan_cycle_sound hp⟩
      | MissingDependency q m =>
        exfalso
        obtain ⟨hr, hd⟩ := plan_missing_sound hp
        have hs := hres m hr
        rw [hd] at hs
        simp at hs
    | ok order =>
      exfalso
      obtain ⟨hnd, hord, _, hreach⟩ := plan_ok_props hp
      obtain ⟨x, hxr, hxt⟩ := hcyc
      exact no_self_trans_in_order hnd hord (hreach x hxr) hxt

theorem search_update (reg : Registry) (fid : String)
    (obj : MorphFunctionMetaObject) :
    search_meta_object (update_meta_object reg fid obj) fid = some obj := by
  induction reg with
  | nil =>
    simp [update_meta_object, search_meta_object]
  | cons p ps ih =>
    by_cases hp : (p.1 == fid) = true
    · have hany : ((p :: ps).any (fun q => q.1 == fid)) = true := by
        simp [List.any_cons, hp]
      unfold update_meta_object
      rw [if_pos hany]
      unfold search_meta_object
      rw [List.map_cons]
      have hhead : (if (p.1 == fid) = true then (fid, obj) else p) = (fid, obj) :=
        if_pos hp
      rw [hhead, List.find?_cons_of_pos _ (by simp)]
      rfl
    · by_cases hps : (ps.any (fun q => q.1 == fid)) = true
      · have hany : ((p :: ps).any (fun q => q.1 == fid)) = true := by
          simp [List.any_cons, hps]
        unfold update_meta_object
        rw [if_pos hany]
        unfold search_meta_object
        rw [List.map_cons]
        have hhead : (if (p.1 == fid) = true then (fid, obj) else p) = p :=
          if_neg hp
        have hp' : (p.1 == fid) = false := by simpa using hp
        rw [hhead]
        simp only [List.find?_cons, hp']
        have ihe := ih
        unfold update_meta_object at ihe
        rw [if_pos hps] at ihe
        unfold search_meta_object at ihe
        exact ihe
      · have hany : ¬ (((p :: ps).any (fun q => q.1 == fid)) = true) := by
          simp only [List.any_cons, Bool.or_eq_true]
          rintro (h | h)
          · exact hp h
          · exact hps h
        unfold update_meta_object
        rw [if_neg hany]
        unfold search_meta_object
        have hp' : (p.1 == fid) = false := by simpa using hp
        rw [List.cons_append]
        simp only [List.find?_cons, hp']
        have ihe := ih
        unfold update_meta_object at ihe
        rw [if_neg hps] at ihe
        unfold search_meta_object at ihe
        exact ihe

theorem get_morph_function_id_fname (f : FuncObj) :
    (get_morph_function_id f).2.fname = f.fname := by
  cases f with
  | mk fl fn at2 => cases at2 <;> rfl

theorem funcDecorator_registered
    (name description title output_type : Option String) (rtl : Option Int)
    (al : Option String) (kwv : Option (List (String × VarSpec)))
    (kwd kwc : Option PyVal) (f : FuncObj) (reg : Registry) :
    search_meta_object
        (funcDecorator name description title output_type rtl al kwv kwd kwc
          f reg).1
        (get_morph_function_id f).1 =
      some
        { id := (get_morph_function_id f).1
          name := pyStrOrName (pyStrOr al name) (get_morph_function_id f).2.fname
          function := (get_morph_function_id f).2
          description := description
          title := title
          «variables» := some (kwv.getD [])
          data_requirements := some
            (match kwd.getD (PyVal.plistStr []) with
              | PyVal.plistStr xs => xs
              | _ => [])
          output_paths := some default_output_paths
          output_type := output_type
          connection :=
            (match kwc.getD PyVal.pnone with
              | PyVal.pstr s => some s
              | _ => none)
          result_cache_ttl := rtl } :=
  search_update reg (get_morph_function_id f).1 _

/-- Witness for C5 at the concrete A-B cycle. -/
theorem plan_cycle_contract_witness :
    IsDepCycle cycleGraph ["A", "B"] ∧
      (∃ c, plan cycleGraph "A" =
          Except.error (PlanError.CycleDetected c) ∧ IsDepCycle cycleGraph c) :=
  ⟨plan_cycle_contract.1 cycleGraph "A" ["A", "B"] rfl,
   plan_cycle_contract.2.1 cycleGraph "A" cycleGraph_resolvable
     ⟨"A", Reaches.refl "A",
      TransRequires.tail
        (TransRequires.single (show Requires cycleGraph "A" "B" by decide))
        (show Requires cycleGraph "B" "A" by decide)⟩⟩

/-- C1 (code bug): on the repository's own example1.py decorator stack the
registration calls do not compose by field-wise last-writer-wins.  load_data
registers the alias2 requirement; the variables call then installs a fresh
object dropping it, because its copy-forward branch fires only when the
existing object's variables field is already truthy; and func finally
installs an object built from its own arguments alone without reading the
registry, so the final Metadata Object has empty data requirements and empty
variables instead of the composed declarations. -/
theorem registration_calls_do_not_compose :
    ((search_meta_object exampleStep1.1 "example1.py:main").map
        (fun m => m.data_requirements) = some (some ["alias2"])) ∧
    ((search_meta_object exampleStep2.1 "example1.py:main").map
        (fun m => (m.data_requirements, m.«variables».map (List.map Prod.fst))) =
      some (none, some ["score_limit"])) ∧
    ((search_meta_object exampleStep3.1 "example1.py:main").map
        (fun m => (m.data_requirements, m.«variables», m.name)) =
      some (some [], some [], "alias1")) :=
  ⟨rfl, rfl, rfl⟩

/-- C3: a step whose underlying code raises, or completes with zero output
artifacts, yields a FAILED run record carrying a non-empty error payload and
leaves the cache unchanged; the cache is overwritten, with the new output
paths and the current timestamp, only when the run reached DONE with at least
one output path. -/
theorem failed_run_cache_contract :
    (∀ (cache : Cache) (now : Int) (name msg : String),
        (runTask (CodeOutcome.raises msg)).final_state = RunStatus.failed ∧
        (runTask (CodeOutcome.raises msg)).error ≠ none ∧
        (run_file_with_type_core cache now name
          (runTask (CodeOutcome.raises msg))).1 = cache) ∧
    (∀ (cache : Cache) (now : Int) (name : String),
        (runTask (CodeOutcome.success [])).final_state = RunStatus.failed ∧
        (runTask (CodeOutcome.success [])).error ≠ none ∧
        (run_file_with_type_core cache now name
          (runTask (CodeOutcome.success []))).1 = cache) ∧
    (∀ (cache : Cache) (now : Int) (name : String) (task : TaskResult),
        (run_file_with_type_core cache now name task).1 ≠ cache →
          task.final_state = RunStatus.done ∧ task.output_paths ≠ [] ∧
          (run_file_with_type_core cache now name task).1 =
            update_cache cache name task.output_paths now) := by
  refine ⟨?_, ?_, ?_⟩
  · intro cache now name msg
    exact ⟨rfl, by simp [runTask], rfl⟩
  · intro cache now name
    exact ⟨rfl, by simp [runTask], rfl⟩
  · intro cache now name task h
    by_cases h1 : task.final_state = RunStatus.done
    · by_cases h2 : task.output_paths.isEmpty = true
      · exfalso
        apply h
        unfold run_file_with_type_core
        rw [if_neg (by simp [h1]), if_pos h2]
      · refine ⟨h1, by simpa [List.isEmpty_iff] using h2, ?_⟩
        unfold run_file_with_type_core
        rw [if_neg (by simp [h1]), if_neg h2]
    · exfalso
      apply h
      unfold run_file_with_type_core
      rw [if_pos h1]

/-- Witness for C3 at a successful one-output run. -/
theorem failed_run_cache_contract_witness :
    (runTask (CodeOutcome.success ["out.csv"])).final_state = RunStatus.done ∧
    (runTask (CodeOutcome.success ["out.csv"])).output_paths ≠ [] ∧
    (run_file_with_type_core [] 1 "r"
        (runTask (CodeOutcome.success ["out.csv"]))).1 =
      update_cache [] "r" (runTask (CodeOutcome.success ["out.csv"])).output_paths 1 :=
  failed_run_cache_contract.2.2 [] 1 "r"
    (runTask (CodeOutcome.success ["out.csv"])) (by decide)

/-- C4: every chunk is forwarded in emission order, and a computation that
raises after emitting its chunks yields exactly those chunks followed by one
final in-band error chunk; in particular three chunks then a raise yield the
three chunks and then the error chunk, never dropping the first three. -/
theorem stream_chunks_contract :
    (∀ (chunks : List String) (e : ExnPayload),
        run_file_stream_core (runTaskStream chunks (some e)) none =
          (jsonHeader ::
              ((chunks ++ [errorChunk e]).map (fun c => c ++ ",")) ++
              [jsonFooter],
            none)) ∧
    (∀ chunks : List String,
        run_file_stream_core (runTaskStream chunks none) none =
          ((if chunks.isEmpty then [] else [jsonHeader]) ++
              chunks.map (fun c => c ++ ",") ++ [jsonFooter],
            none)) ∧
    (run_file_stream_core
        (runTaskStream ["c1", "c2", "c3"]
          (some { type := "ValueError", message := "boom" })) none =
      (jsonHeader ::
          ["c1" ++ ",", "c2" ++ ",", "c3" ++ ",",
            errorChunk { type := "ValueError", message := "boom" } ++ ","] ++
          [jsonFooter],
        none)) := by
  refine ⟨?_, ?_, rfl⟩
  · intro chunks e
    show ((if (chunks ++ [errorChunk e]).isEmpty then [] else [jsonHeader]) ++
        (chunks ++ [errorChunk e]).map (fun c => c ++ ",") ++ [jsonFooter],
        (none : Option ExnPayload)) = _
    rw [if_neg (by simp)]
    rfl
  · intro chunks
    rfl

/-- C6: the staleness check uses the resource's own result_cache_ttl when
set, else the project default, which itself defaults to 0; an entry is stale
exactly when now minus its timestamp exceeds the effective TTL; and a TTL of
0, set or defaulted, makes every strictly older entry stale, so the resource
is always recomputed. -/
theorem staleness_contract :
    (∀ (p : MorphProject) (t : Int), effective_ttl p (some t) = t) ∧
    (∀ p : MorphProject, effective_ttl p none = p.result_cache_ttl.getD 0) ∧
    default_initial_project.result_cache_ttl = some 0 ∧
    (∀ now ts ttl : Int, is_stale now ts ttl = true ↔ now - ts > ttl) ∧
    (∀ now ts : Int, ts < now → ∀ p : MorphProject,
        is_stale now ts (effective_ttl p (some 0)) = true ∧
        is_stale now ts (effective_ttl default_initial_project none) = true) := by
  refine ⟨fun p t => rfl, fun p => rfl, rfl, fun now ts ttl => by
    simp [is_stale], ?_⟩
  intro now ts h p
  constructor
  · simp only [is_stale, effective_ttl]
    simp
    omega
  · simp only [is_stale, effective_ttl, default_initial_project]
    simp
    omega

/-- Witness for C6 at a concrete pair of timestamps. -/
theorem staleness_contract_witness :
    is_stale 5 3 (effective_ttl default_initial_project (some 0)) = true ∧
    is_stale 5 3 (effective_ttl default_initial_project none) = true :=
  staleness_contract.2.2.2.2 5 3 (by decide) default_initial_project

/-- C7 counterexample: with the name foo and the alias given as the empty
string, the registered name stays foo rather than the supplied alias, because
the Python alias-or-name chain treats the empty string as falsy.  So a
supplied alias does not always become the registered lookup name. -/
theorem alias_empty_string_not_registered :
    (search_meta_object
        (funcDecorator (some "foo") none none none none (some "") none none
          none c7Func []).1 "a.py:fn_main").map (fun m => m.name) =
      some "foo" ∧ ("foo" : String) ≠ "" :=
  ⟨rfl, by decide⟩

/-- C7 amended: the registered name defaults to the symbol name when no name
is given, a supplied non-empty alias overrides any supplied name, and a
supplied non-empty name is registered when no alias is given; an empty-string
alias is falsy in Python and is ignored. -/
theorem name_default_and_alias_override
    (description title output_type : Option String) (rtl : Option Int)
    (kwv : Option (List (String × VarSpec))) (kwd kwc : Option PyVal)
    (f : FuncObj) (reg : Registry) :
    ((search_meta_object
        (funcDecorator none description title output_type rtl none kwv kwd kwc
          f reg).1 (get_morph_function_id f).1).map (fun m => m.name) =
      some f.fname) ∧
    (∀ (nm : Option String) (a : String), a ≠ "" →
      (search_meta_object
          (funcDecorator nm description title output_type rtl (some a) kwv kwd
            kwc f reg).1 (get_morph_function_id f).1).map (fun m => m.name) =
        some a) ∧
    (∀ s : String, s ≠ "" →
      (search_meta_object
          (funcDecorator (some s) description title output_type rtl none kwv
            kwd kwc f reg).1 (get_morph_function_id f).1).map (fun m => m.name) =
        some s) := by
  refine ⟨?_, ?_, ?_⟩
  · rw [funcDecorator_registered]
    simp [pyStrOr, pyStrOrName, get_morph_function_id_fname]
  · intro nm a ha
    rw [funcDecorator_registered]
    simp [pyStrOr, pyStrOrName, ha]
  · intro s hs
    rw [funcDecorator_registered]
    simp [pyStrOr, pyStrOrName, hs]

/-- Witness for the amended C7: a non-empty alias bar overrides the name foo. -/
theorem name_default_and_alias_override_witness :
    (search_meta_object
        (funcDecorator (some "foo") none none none none (some "bar") none none
          none c7Func []).1 (get_morph_function_id c7Func).1).map
      (fun m => m.name) = some "bar" :=
  (name_default_and_alias_override none none none none none none none
    c7Func []).2.1 (some "foo") "bar" (by decide)

/-- C8: the resource id is derived deterministically from the source-file
path plus the in-file symbol name, and repeated calls on the same function
object return the same id, the first call caching it on the object. -/
theorem function_id_deterministic :
    (∀ f : FuncObj, f.fid_attr = none →
        (get_morph_function_id f).1 = f.file ++ ":" ++ f.fname) ∧
    (∀ f : FuncObj,
        (get_morph_function_id (get_morph_function_id f).2).1 =
          (get_morph_function_id f).1) := by
  constructor
  · intro f h
    cases f with
    | mk fl fn at2 =>
      simp only at h
      subst h
      rfl
  · intro f
    cases f with
    | mk fl fn at2 => cases at2 <;> rfl

/-- Witness for C8 at a concrete fresh function object. -/
theorem function_id_deterministic_witness :
    (get_morph_function_id
        { file := "a.py", fname := "main", fid_attr := none }).1 =
      "a.py" ++ ":" ++ "main" :=
  function_id_deterministic.1
    { file := "a.py", fname := "main", fid_attr := none } rfl

/-- C9: each registration decorator returns a wrapper that calls the
decorated function with the same arguments and returns exactly its result. -/
theorem wrappers_behaviorally_identical :
    ∀ (α β : Type) (f : α → β) (a : α),
      funcWrapper f a = f a ∧ variablesWrapper f a = f a ∧
        loadDataWrapper f a = f a :=
  fun _ _ _ _ => ⟨rfl, rfl, rfl⟩

/-- C10: registration with malformed keyword arguments does not raise: a
data-requirements value that is not a list registers as the empty list, and a
connection value that is neither a string nor None registers as None. -/
theorem malformed_kwargs_contract
    (name description title output_type : Option String) (rtl : Option Int)
    (al : Option String) (kwv : Option (List (String × VarSpec)))
    (f : FuncObj) (reg : Registry) (v w : PyVal)
    (hv : ∀ xs, v ≠ PyVal.plistStr xs)
    (hw1 : ∀ s, w ≠ PyVal.pstr s) (hw2 : w ≠ PyVal.pnone) :
    (search_meta_object
        (funcDecorator name description title output_type rtl al kwv
          (some v) (some w) f reg).1
        (get_morph_function_id f).1).map
      (fun m => (m.data_requirements, m.connection)) =
      some (some [], none) := by
  rw [funcDecorator_registered]
  have hdv : (match (some v).getD (PyVal.plistStr []) with
      | PyVal.plistStr xs => xs
      | _ => []) = ([] : List String) := by
    cases v with
    | plistStr xs => exact absurd rfl (hv xs)
    | pstr s => rfl
    | pint n => rfl
    | pbool b => rfl
    | pnone => rfl
  have hcw : (match (some w).getD PyVal.pnone with
      | PyVal.pstr s => some s
      | _ => none) = (none : Option String) := by
    cases w with
    | pstr s => exact absurd rfl (hw1 s)
    | pint n => rfl
    | pbool b => rfl
    | pnone => rfl
    | plistStr xs => rfl
  rw [hdv, hcw]
  rfl

/-- Witness for C10 at an integer data-requirements value and a boolean
connection value. -/
theorem malformed_kwargs_contract_witness :
    (search_meta_object
        (funcDecorator none none none none none none none
          (some (PyVal.pint 3)) (some (PyVal.pbool true)) c7Func []).1
        (get_morph_function_id c7Func).1).map
      (fun m => (m.data_requirements, m.connection)) =
      some (some [], none) :=
  malformed_kwargs_contract none none none none none none none c7Func []
    (PyVal.pint 3) (PyVal.pbool true)
    (fun xs h => by cases h) (fun s h => by cases h) (fun h => by cases h)

end Morph
